import Mathlib

/-!
Verification of the declarative data-model validation example
(`src/pydantic_example_3.py`) against its natural-language specification.

The repository declares two record schemas (`Address`, `UserWithAddress`),
binds one custom validation rule (`name_must_be_at_least_two_chars`) to the
`name` field, and exercises the validation engine on one invalid and one
valid input.  The engine itself (field coercion, nested validation, custom
validator hook, error aggregation, `to_plain_mapping`) lives in the external
pydantic library, not in the repository's sources, so it is modelled here
from the specification's description (sections 3, 4, 7 of the spec).
-/

set_option maxHeartbeats 2000000

namespace Pydantic3

/-- Modelled from the spec (design notes): raw and coerced field values are a
tagged union of string, number, boolean, null, mapping and sequence. -/
inductive Value where
  | vnull
  | vbool (b : Bool)
  | vint (n : Int)
  | vstr (s : String)
  | vseq (items : List Value)
  | vmap (entries : List (String × Value))

/-- Modelled from the spec: one step of a field path — a field name or a
sequence element index. -/
inductive PathSeg where
  | field (n : String)
  | index (i : Nat)

deriving instance DecidableEq for PathSeg

/-- Modelled from the spec (section 7): the error taxonomy. -/
inductive ErrorKind where
  | missingField
  | typeMismatch
  | formatMismatch
  | customRuleFailure

deriving instance DecidableEq for ErrorKind

/-- Modelled from the spec: a validation error carries a field path, an error
kind and a human-readable message. -/
structure ValidationError where
  path : List PathSeg
  kind : ErrorKind
  msg : String

deriving instance DecidableEq for ValidationError

/-- The custom validators declared by the repository.  The source declares
exactly one, `name_must_be_at_least_two_chars`, bound to `name`. -/
inductive CustomValidator where
  | nameMin2

deriving instance DecidableEq for CustomValidator

/-- Embedded from `src/pydantic_example_3.py` lines 17-22: rejects a value of
length below two with the message from the source, otherwise returns the
value unchanged.  Gating guarantees it only ever sees coerced strings. -/
def name_must_be_at_least_two_chars (v : Value) : Except String Value :=
  match v with
  | .vstr s =>
      if s.length < 2 then .error "Name must be at least 2 characters long"
      else .ok (.vstr s)
  | w => .ok w

/-- Dispatch a custom validator by name. -/
def runCustomValidator : CustomValidator → Value → Except String Value
  | .nameMin2, v => name_must_be_at_least_two_chars v

/-- Modelled from the spec: run the validators bound to a field in declaration
order; each receives the previous one's output; stop at the first failure. -/
def runValidators : List CustomValidator → Value → Except String Value
  | [], v => .ok v
  | c :: rest, v =>
      match runCustomValidator c v with
      | .error m => .error m
      | .ok w => runValidators rest w

/-- Split a character list at every occurrence of `c`. -/
def splitOnChar (c : Char) : List Char → List (List Char)
  | [] => [[]]
  | x :: xs =>
      match splitOnChar c xs with
      | [] => if x = c then [[], [x]] else [[x]]
      | g :: gs => if x = c then [] :: g :: gs else (x :: g) :: gs

/-- Modelled from the spec: syntactic email validity (the engine's `email`
format check, absent from src).  One `@` with a nonempty local part and a
nonempty domain containing at least one dot separating nonempty labels. -/
def isEmail (s : String) : Bool :=
  match splitOnChar '@' s.toList with
  | [lp, dom] =>
      decide (lp ≠ []) && decide (dom ≠ []) &&
        (let parts := splitOnChar '.' dom
         decide (2 ≤ parts.length) && parts.all (fun part => decide (part ≠ [])))
  | _ => false

/-- Accumulate the decimal digits of a character list. -/
def decNatAux : List Char → Nat → Option Nat
  | [], acc => some acc
  | c :: cs, acc =>
      if c.isDigit then decNatAux cs (acc * 10 + (c.toNat - 48)) else none

/-- Modelled from the spec: numeric-string-to-integer coercion used by the
engine's `int` coercion (absent from src). -/
def strToInt? (s : String) : Option Int :=
  match s.toList with
  | [] => none
  | '-' :: cs =>
      if cs = [] then none else (decNatAux cs 0).map (fun n => -(n : Int))
  | cs => (decNatAux cs 0).map (fun n => (n : Int))

/-- First value bound to a key in a raw mapping (later duplicates ignored). -/
def lookupField : List (String × Value) → String → Option Value
  | [], _ => none
  | (k, v) :: rest, n => if k = n then some v else lookupField rest n

/-- Is an `Except` result an error? -/
def isErr : Except (List ValidationError) Value → Bool
  | .error _ => true
  | .ok _ => false

/-- The error list of an `Except` result (empty on success). -/
def errList : Except (List ValidationError) Value → List ValidationError
  | .error es => es
  | .ok _ => []

mutual
/-- Modelled from the spec (section 3): a declared field type — primitive,
format-constrained string, nested schema, or sequence of nested schema. -/
inductive FieldType where
  | intTy
  | strTy
  | emailTy
  | nestedTy (s : FieldList)
  | seqTy (s : FieldList)

/-- Modelled from the spec (section 3): a schema is an ordered sequence of
field definitions (name, declared type, bound custom validators). -/
inductive FieldList where
  | nil
  | cons (n : String) (ty : FieldType) (validators : List CustomValidator)
      (rest : FieldList)
end

/-- Modelled from the spec (section 4.1, steps 1-3): one field — missing
required field, else type coercion (`coer` is the coercion function of the
field's declared type) at the field's path, and only on coercion success the
field's custom validators in declaration order. -/
def validateField (n : String)
    (coer : List PathSeg → Value → Except (List ValidationError) Value)
    (vs : List CustomValidator) (p : List PathSeg) (o : Option Value) :
    Except (List ValidationError) Value :=
  match o with
  | none => .error [⟨p ++ [.field n], .missingField, "Field required"⟩]
  | some raw =>
      match coer (p ++ [.field n]) raw with
      | .error es => .error es
      | .ok v =>
          match runValidators vs v with
          | .error m => .error [⟨p ++ [.field n], .customRuleFailure, m⟩]
          | .ok w => .ok w

/-- Modelled from the spec: validate one element of a sequence-of-schema
field (`f` is the nested schema's field processor; `ep` the element's full
path, parent field name plus index). -/
def validateElement
    (f : List PathSeg → List (String × Value) →
      List ValidationError × List (String × Value))
    (ep : List PathSeg) (v : Value) : Except (List ValidationError) Value :=
  match v with
  | .vmap kvs =>
      match f ep kvs with
      | ([], outs) => .ok (.vmap outs)
      | (es, _) => .error es
  | _ => .error [⟨ep, .typeMismatch, "Input should be a valid dictionary"⟩]

/-- Modelled from the spec: validate each element of a sequence field,
re-pathing each element's errors with its index, aggregating every element's
errors and collecting the coerced elements in order. -/
def coerceItems
    (f : List PathSeg → List (String × Value) →
      List ValidationError × List (String × Value))
    (p : List PathSeg) (i : Nat) :
    List Value → List ValidationError × List Value
  | [] => ([], [])
  | v :: rest =>
      match validateElement f (p ++ [.index i]) v,
            coerceItems f p (i + 1) rest with
      | .error es, (es2, ws) => (es ++ es2, ws)
      | .ok w, (es2, ws) => (es2, w :: ws)

mutual
/-- Modelled from the spec (section 4.1, step 2): type coercion/checking of a
raw value against a declared field type, at a given error path.  Nested
schemas validate recursively; sequence elements are re-pathed by index. -/
def coerceValue : FieldType → List PathSeg → Value →
    Except (List ValidationError) Value
  | .intTy => fun p v =>
      match v with
      | .vint n => .ok (.vint n)
      | .vstr s =>
          match strToInt? s with
          | some n => .ok (.vint n)
          | none =>
              .error [⟨p, .typeMismatch, "Input should be a valid integer"⟩]
      | _ => .error [⟨p, .typeMismatch, "Input should be a valid integer"⟩]
  | .strTy => fun p v =>
      match v with
      | .vstr s => .ok (.vstr s)
      | _ => .error [⟨p, .typeMismatch, "Input should be a valid string"⟩]
  | .emailTy => fun p v =>
      match v with
      | .vstr s =>
          if isEmail s then .ok (.vstr s)
          else
            .error [⟨p, .formatMismatch, "value is not a valid email address"⟩]
      | _ => .error [⟨p, .typeMismatch, "Input should be a valid string"⟩]
  | .nestedTy s => fun p v => validateElement (validateFields s) p v
  | .seqTy s => fun p v =>
      match v with
      | .vseq items =>
          match coerceItems (validateFields s) p 0 items with
          | ([], ws) => .ok (.vseq ws)
          | (es, _) => .error es
      | _ => .error [⟨p, .typeMismatch, "Input should be a valid list"⟩]

/-- Modelled from the spec (section 4.1): process each field in declaration
order, aggregating all errors in order and collecting coerced fields. -/
def validateFields : FieldList → List PathSeg → List (String × Value) →
    List ValidationError × List (String × Value)
  | .nil => fun _ _ => ([], [])
  | .cons n ty vs rest => fun p kvs =>
      match validateField n (coerceValue ty) vs p (lookupField kvs n),
            validateFields rest p kvs with
      | .error es, (es2, outs) => (es ++ es2, outs)
      | .ok v, (es2, outs) => (es2, (n, v) :: outs)
end

/-- Modelled from the spec (section 4.1, `validate`): a raw record must be a
mapping; all field errors are aggregated, and the operation succeeds only
when no field failed, returning the immutable coerced instance. -/
def validate (schema : FieldList) (raw : Value) :
    Except (List ValidationError) Value :=
  match raw with
  | .vmap kvs =>
      match validateFields schema [] kvs with
      | ([], outs) => .ok (.vmap outs)
      | (es, _) => .error es
  | _ => .error [⟨[], .typeMismatch, "Input should be a valid dictionary"⟩]

mutual
/-- Modelled from the spec (section 4.1, `to_plain_mapping`, the engine side
of `model_dump` on line 52 of the source): project a validated instance back
to a plain nested mapping/sequence structure. -/
def to_plain_mapping (v : Value) : Value :=
  match v with
  | .vmap entries => .vmap (dumpEntries entries)
  | .vseq items => .vseq (dumpItems items)
  | w => w
termination_by sizeOf v

/-- Projection of a sequence of instance values. -/
def dumpItems : List Value → List Value
  | [] => []
  | v :: rest => to_plain_mapping v :: dumpItems rest
termination_by l => sizeOf l

/-- Projection of the named fields of an instance. -/
def dumpEntries : List (String × Value) → List (String × Value)
  | [] => []
  | (k, v) :: rest => (k, to_plain_mapping v) :: dumpEntries rest
termination_by l => sizeOf l
end

/-- Embedded from `src/pydantic_example_3.py` lines 4-7: the `Address`
schema — three plain string fields, no custom validators. -/
def Address : FieldList :=
  .cons "street" .strTy []
    (.cons "city" .strTy []
      (.cons "zip_code" .strTy [] .nil))

/-- Embedded from `src/pydantic_example_3.py` lines 9-22: the
`UserWithAddress` schema — `id : int`, `name : str` with the custom rule
`name_must_be_at_least_two_chars`, `email : EmailStr`, `addresses :
List[Address]`. -/
def UserWithAddress : FieldList :=
  .cons "id" .intTy []
    (.cons "name" .strTy [.nameMin2]
      (.cons "email" .emailTy []
        (.cons "addresses" (.seqTy Address) [] .nil)))

/-- Embedded from `src/pydantic_example_3.py` lines 26-31: the invalid test
record (short name). -/
def invalidInput : Value :=
  .vmap [("id", .vint 3), ("name", .vstr "A"),
         ("email", .vstr "charlie@example.com"),
         ("addresses", .vseq [.vmap [("street", .vstr "789 Pine Rd"),
                                     ("city", .vstr "Chicago"),
                                     ("zip_code", .vstr "60601")]])]

/-- Embedded from `src/pydantic_example_3.py` lines 41-49: the valid test
record with two addresses. -/
def validInput : Value :=
  .vmap [("id", .vint 1), ("name", .vstr "Alice"),
         ("email", .vstr "alice@example.com"),
         ("addresses", .vseq
           [.vmap [("street", .vstr "123 Main St"),
                   ("city", .vstr "New York"),
                   ("zip_code", .vstr "10001")],
            .vmap [("street", .vstr "456 Oak Ave"),
                   ("city", .vstr "Los Angeles"),
                   ("zip_code", .vstr "90001")]])]

/-- The scalar (non-nested) field types. -/
def IsScalarTy (ty : FieldType) : Prop :=
  ty = .intTy ∨ ty = .strTy ∨ ty = .emailTy

/-- Replace the custom-validator list of every field named `fname`. -/
def setValidators (fname : String) (ws : List CustomValidator) :
    FieldList → FieldList
  | .nil => .nil
  | .cons n ty vs rest =>
      .cons n ty (if n = fname then ws else vs) (setValidators fname ws rest)

/-- Every field named `fname` fails type coercion on the raw value the record
binds to `fname` (trivially true when the record has no such key). -/
def coercionFailsFor (p : List PathSeg) (kvs : List (String × Value))
    (fname : String) : FieldList → Prop
  | .nil => True
  | .cons n ty _ rest =>
      (n = fname → ∀ v, lookupField kvs fname = some v →
        isErr (coerceValue ty (p ++ [.field fname]) v) = true) ∧
      coercionFailsFor p kvs fname rest

/-- Number of failing sub-fields of one element of `addresses` (an element
that is not even a mapping counts as a single failure). -/
def addrElemFailCount (ep : List PathSeg) (v : Value) : Nat :=
  match v with
  | .vmap akvs =>
      (isErr (validateField "street" (coerceValue .strTy) [] ep
        (lookupField akvs "street"))).toNat +
      (isErr (validateField "city" (coerceValue .strTy) [] ep
        (lookupField akvs "city"))).toNat +
      (isErr (validateField "zip_code" (coerceValue .strTy) [] ep
        (lookupField akvs "zip_code"))).toNat
  | _ => 1

/-- Total number of failing sub-fields across the elements of `addresses`,
elements indexed from `i`. -/
def addressesFailCount (p : List PathSeg) : Nat → List Value → Nat
  | _, [] => 0
  | i, v :: rest =>
      addrElemFailCount (p ++ [.index i]) v + addressesFailCount p (i + 1) rest

/-- Number of failing fields/sub-fields of a raw `UserWithAddress` record:
one per failing scalar field and one per failing address sub-field (the
`addresses` field itself counts as one failure when absent or not a list). -/
def countFailingLeaves (kvs : List (String × Value)) : Nat :=
  (isErr (validateField "id" (coerceValue .intTy) [] []
    (lookupField kvs "id"))).toNat +
  (isErr (validateField "name" (coerceValue .strTy) [.nameMin2] []
    (lookupField kvs "name"))).toNat +
  (isErr (validateField "email" (coerceValue .emailTy) [] []
    (lookupField kvs "email"))).toNat +
  (match lookupField kvs "addresses" with
   | some (.vseq items) => addressesFailCount [.field "addresses"] 0 items
   | _ => 1)

/-- An otherwise-valid record whose single address carries the given three
strings. -/
def inputWithAddress (street city zip : String) : Value :=
  .vmap [("id", .vint 1), ("name", .vstr "Alice"),
         ("email", .vstr "alice@example.com"),
         ("addresses", .vseq [.vmap [("street", .vstr street),
                                     ("city", .vstr city),
                                     ("zip_code", .vstr zip)]])]

theorem validateFields_nil (p : List PathSeg) (kvs : List (String × Value)) :
    validateFields .nil p kvs = ([], []) := rfl

theorem validateFields_cons (n : String) (ty : FieldType)
    (vs : List CustomValidator) (rest : FieldList) (p : List PathSeg)
    (kvs : List (String × Value)) :
    validateFields (.cons n ty vs rest) p kvs =
      match validateField n (coerceValue ty) vs p (lookupField kvs n),
            validateFields rest p kvs with
      | .error es, (es2, outs) => (es ++ es2, outs)
      | .ok v, (es2, outs) => (es2, (n, v) :: outs) := rfl

theorem validateFields_cons_fst (n : String) (ty : FieldType)
    (vs : List CustomValidator) (rest : FieldList) (p : List PathSeg)
    (kvs : List (String × Value)) :
    (validateFields (.cons n ty vs rest) p kvs).1 =
      errList (validateField n (coerceValue ty) vs p (lookupField kvs n)) ++
        (validateFields rest p kvs).1 := by
  rw [validateFields_cons]
  rcases hr : validateField n (coerceValue ty) vs p (lookupField kvs n) with
    es | v <;>
    rcases hrest : validateFields rest p kvs with ⟨es2, outs⟩ <;>
    simp [errList]

theorem validateElement_error_ne_nil
    (f : List PathSeg → List (String × Value) →
      List ValidationError × List (String × Value))
    (ep : List PathSeg) (v : Value) (es : List ValidationError)
    (h : validateElement f ep v = .error es) : es ≠ [] := by
  cases v <;> simp [validateElement] at h <;> try (rw [← h]; simp)
  case vmap kvs =>
    rcases hf : f ep kvs with ⟨es2, outs⟩
    rw [hf] at h
    cases es2 with
    | nil => simp at h
    | cons e tail => simp at h; rw [← h]; simp

theorem coerceValue_error_ne_nil (ty : FieldType) (p : List PathSeg)
    (v : Value) (es : List ValidationError)
    (h : coerceValue ty p v = .error es) : es ≠ [] := by
  cases ty with
  | intTy =>
      cases v <;> simp [coerceValue] at h <;> try (rw [← h]; simp)
      case vstr s =>
        rcases hs : strToInt? s with _ | n <;> rw [hs] at h <;> simp at h
        rw [← h]; simp
  | strTy => cases v <;> simp [coerceValue] at h <;> (rw [← h]; simp)
  | emailTy =>
      cases v <;> simp [coerceValue] at h <;> try (rw [← h]; simp)
      case vstr s =>
        rcases he : isEmail s with _ | _ <;> rw [he] at h <;> simp at h
        rw [← h]; simp
  | nestedTy s => exact validateElement_error_ne_nil _ p v es h
  | seqTy s =>
      cases v <;> simp [coerceValue] at h <;> try (rw [← h]; simp)
      case vseq items =>
        rcases hc : coerceItems (validateFields s) p 0 items with ⟨es2, ws⟩
        rw [hc] at h
        cases es2 with
        | nil => simp at h
        | cons e tail => simp at h; rw [← h]; simp

theorem validateField_error_ne_nil (n : String) (ty : FieldType)
    (vs : List CustomValidator) (p : List PathSeg) (o : Option Value)
    (es : List ValidationError)
    (h : validateField n (coerceValue ty) vs p o = .error es) : es ≠ [] := by
  cases o with
  | none => simp [validateField] at h; rw [← h]; simp
  | some raw =>
      simp only [validateField] at h
      rcases hc : coerceValue ty (p ++ [.field n]) raw with es2 | w <;>
        rw [hc] at h
      · simp at h; rw [← h]; exact coerceValue_error_ne_nil ty _ raw es2 hc
      · simp only [] at h
        rcases hv : runValidators vs w with m | u <;> rw [hv] at h <;>
          simp at h
        rw [← h]; simp

theorem name_validator_ok_eq (v w : Value)
    (h : name_must_be_at_least_two_chars v = .ok w) : w = v := by
  cases v <;> simp only [name_must_be_at_least_two_chars] at h <;>
    try (simp at h; exact h.symm)
  case vstr s =>
    by_cases hl : s.length < 2
    · rw [if_pos hl] at h; simp at h
    · rw [if_neg hl] at h; simp at h; exact h.symm

theorem runCustomValidator_ok_eq (c : CustomValidator) (v w : Value)
    (h : runCustomValidator c v = .ok w) : w = v := by
  cases c; exact name_validator_ok_eq v w h

theorem runValidators_ok_eq (vs : List CustomValidator) (v w : Value)
    (h : runValidators vs v = .ok w) : w = v := by
  induction vs generalizing v with
  | nil => simp [runValidators] at h; exact h.symm
  | cons c rest ih =>
      simp only [runValidators] at h
      rcases hc : runCustomValidator c v with m | u <;> rw [hc] at h
      · simp at h
      · simp only [] at h
        have h1 := runCustomValidator_ok_eq c v u hc
        have h2 := ih u h
        rw [h2, h1]

theorem runValidators_idem (vs : List CustomValidator) (v w : Value)
    (h : runValidators vs v = .ok w) : runValidators vs w = .ok w := by
  have := runValidators_ok_eq vs v w h
  rw [this]; rw [this] at h; exact h

/-- Claim C1: the short-name scenario — validating
`{id:3, name:"A", email:"charlie@example.com", addresses:[{street:"789 Pine
Rd", city:"Chicago", zip_code:"60601"}]}` against `UserWithAddress` fails
with exactly one error, on field `name`, of kind CustomRuleFailure, with
message "Name must be at least 2 characters long". -/
theorem short_name_scenario :
    validate UserWithAddress invalidInput =
      .error [⟨[.field "name"], .customRuleFailure,
               "Name must be at least 2 characters long"⟩] := rfl

/-- Claim C4: the valid multi-address input validates successfully, the
resulting instance holds the two address entries in input order, and
`to_plain_mapping` of that instance reproduces the same nested structure. -/
theorem valid_multi_address_scenario :
    validate UserWithAddress validInput =
      .ok (.vmap [("id", .vint 1), ("name", .vstr "Alice"),
                  ("email", .vstr "alice@example.com"),
                  ("addresses", .vseq
                    [.vmap [("street", .vstr "123 Main St"),
                            ("city", .vstr "New York"),
                            ("zip_code", .vstr "10001")],
                     .vmap [("street", .vstr "456 Oak Ave"),
                            ("city", .vstr "Los Angeles"),
                            ("zip_code", .vstr "90001")]])]) ∧
    to_plain_mapping
      (.vmap [("id", .vint 1), ("name", .vstr "Alice"),
              ("email", .vstr "alice@example.com"),
              ("addresses", .vseq
                [.vmap [("street", .vstr "123 Main St"),
                        ("city", .vstr "New York"),
                        ("zip_code", .vstr "10001")],
                 .vmap [("street", .vstr "456 Oak Ave"),
                        ("city", .vstr "Los Angeles"),
                        ("zip_code", .vstr "90001")]])]) = validInput := by
  constructor
  · rfl
  · simp [to_plain_mapping, dumpItems, dumpEntries, validInput]

/-- Claim C7: the short-name scenario's input with the email replaced by
"not-an-email" (and any name long enough to pass the custom rule) fails with
exactly one FormatMismatch error on field `email`. -/
theorem malformed_email_scenario (nm : String) (h : 2 ≤ nm.length) :
    validate UserWithAddress
      (.vmap [("id", .vint 3), ("name", .vstr nm),
              ("email", .vstr "not-an-email"),
              ("addresses", .vseq [.vmap [("street", .vstr "789 Pine Rd"),
                                          ("city", .vstr "Chicago"),
                                          ("zip_code", .vstr "60601")]])]) =
      .error [⟨[.field "email"], .formatMismatch,
               "value is not a valid email address"⟩] := by
  have h2 : ¬ (nm.length < 2) := by omega
  simp +decide [validate, validateFields, validateField, coerceValue,
    validateElement, coerceItems, lookupField, runValidators,
    runCustomValidator, name_must_be_at_least_two_chars, h2]

/-- Witness for C7 at the concrete name "Charlie". -/
theorem malformed_email_scenario_witness :
    2 ≤ "Charlie".length ∧
    validate UserWithAddress
      (.vmap [("id", .vint 3), ("name", .vstr "Charlie"),
              ("email", .vstr "not-an-email"),
              ("addresses", .vseq [.vmap [("street", .vstr "789 Pine Rd"),
                                          ("city", .vstr "Chicago"),
                                          ("zip_code", .vstr "60601")]])]) =
      .error [⟨[.field "email"], .formatMismatch,
               "value is not a valid email address"⟩] :=
  ⟨by decide, malformed_email_scenario "Charlie" (by decide)⟩

/-- Claim C8: every custom validator is deterministic — two runs on the same
coerced input value yield the same result. -/
theorem custom_validator_deterministic (c : CustomValidator) (v : Value)
    (r1 r2 : Except String Value) (h1 : runCustomValidator c v = r1)
    (h2 : runCustomValidator c v = r2) : r1 = r2 :=
  h1.symm.trans h2

/-- Witness for C8 at the repository's validator and a concrete value. -/
theorem custom_validator_deterministic_witness :
    runCustomValidator .nameMin2 (.vstr "A") =
      .error "Name must be at least 2 characters long" ∧
    (Except.error "Name must be at least 2 characters long" :
      Except String Value) =
      .error "Name must be at least 2 characters long" :=
  ⟨rfl, custom_validator_deterministic .nameMin2 (.vstr "A") _ _ rfl rfl⟩

/-- Claim C9: the custom name validator is the identity on accepted values —
on any string of length at least two it returns the value unchanged, and the
full `name` field check stores exactly the coerced input value. -/
theorem name_validator_identity (s : String) (h : 2 ≤ s.length) :
    name_must_be_at_least_two_chars (.vstr s) = .ok (.vstr s) ∧
    validateField "name" (coerceValue .strTy) [.nameMin2] []
      (some (.vstr s)) = .ok (.vstr s) := by
  have h2 : ¬ (s.length < 2) := by omega
  constructor
  · simp [name_must_be_at_least_two_chars, h2]
  · simp [validateField, coerceValue, runValidators, runCustomValidator,
      name_must_be_at_least_two_chars, h2]

/-- Witness for C9 at the concrete name "Alice". -/
theorem name_validator_identity_witness :
    2 ≤ "Alice".length ∧
    (name_must_be_at_least_two_chars (.vstr "Alice") = .ok (.vstr "Alice") ∧
     validateField "name" (coerceValue .strTy) [.nameMin2] []
       (some (.vstr "Alice")) = .ok (.vstr "Alice")) :=
  ⟨by decide, name_validator_identity "Alice" (by decide)⟩

/-- Claim C10: the minimum-length rule is bound only to `name` — an
otherwise-valid input whose address strings have length at most one (in
particular length 0 or 1) still validates successfully. -/
theorem no_length_rule_on_address (street city zip : String)
    (_h : street.length ≤ 1 ∨ city.length ≤ 1 ∨ zip.length ≤ 1) :
    validate UserWithAddress (inputWithAddress street city zip) =
      .ok (.vmap [("id", .vint 1), ("name", .vstr "Alice"),
                  ("email", .vstr "alice@example.com"),
                  ("addresses", .vseq [.vmap [("street", .vstr street),
                                              ("city", .vstr city),
                                              ("zip_code", .vstr zip)]])]) :=
  rfl

/-- Witness for C10 at length-1 and length-0 address strings. -/
theorem no_length_rule_on_address_witness :
    (("x" : String).length ≤ 1 ∨ ("" : String).length ≤ 1 ∨
      ("60601" : String).length ≤ 1) ∧
    validate UserWithAddress (inputWithAddress "x" "" "60601") =
      .ok (.vmap [("id", .vint 1), ("name", .vstr "Alice"),
                  ("email", .vstr "alice@example.com"),
                  ("addresses", .vseq [.vmap [("street", .vstr "x"),
                                              ("city", .vstr ""),
                                              ("zip_code", .vstr "60601")]])]) :=
  ⟨Or.inl (by decide), no_length_rule_on_address "x" "" "60601"
    (Or.inl (by decide))⟩

theorem validateFields_setValidators (fname : String)
    (ws : List CustomValidator) :
    ∀ (fl : FieldList) (p : List PathSeg) (kvs : List (String × Value)),
      coercionFailsFor p kvs fname fl →
      validateFields (setValidators fname ws fl) p kvs =
        validateFields fl p kvs
  | .nil => fun _ _ _ => rfl
  | .cons n ty vs rest => by
      intro p kvs h
      obtain ⟨hhead, htail⟩ := h
      rw [setValidators]
      rw [validateFields_cons, validateFields_cons,
        validateFields_setValidators fname ws rest p kvs htail]
      by_cases hn : n = fname
      · subst hn
        rw [if_pos rfl]
        rcases ho : lookupField kvs n with _ | v
        · rfl
        · have hfail := hhead rfl v ho
          rcases hc : coerceValue ty (p ++ [.field n]) v with es | w
          · simp [validateField, hc]
          · rw [hc] at hfail; simp [isErr] at hfail
      · rw [if_neg hn]

/-- Claim C5: custom-rule gating — replacing the custom validators of any
field whose raw value fails type coercion does not change the result of
`validate`, i.e. no custom validator bound to that field is ever invoked on
a value that failed coercion. -/
theorem custom_rule_gating (schema : FieldList) (fname : String)
    (ws : List CustomValidator) (kvs : List (String × Value))
    (h : coercionFailsFor [] kvs fname schema) :
    validate (setValidators fname ws schema) (.vmap kvs) =
      validate schema (.vmap kvs) := by
  simp only [validate]
  rw [validateFields_setValidators fname ws schema [] kvs h]

/-- Witness for C5: in the `UserWithAddress` schema, with `name` bound to a
non-string, stripping the name validator entirely leaves the result
unchanged. -/
theorem custom_rule_gating_witness :
    coercionFailsFor [] [("id", .vint 3), ("name", .vint 7),
        ("email", .vstr "charlie@example.com"), ("addresses", .vseq [])]
      "name" UserWithAddress ∧
    validate (setValidators "name" [] UserWithAddress)
        (.vmap [("id", .vint 3), ("name", .vint 7),
                ("email", .vstr "charlie@example.com"),
                ("addresses", .vseq [])]) =
      validate UserWithAddress
        (.vmap [("id", .vint 3), ("name", .vint 7),
                ("email", .vstr "charlie@example.com"),
                ("addresses", .vseq [])]) := by
  have h : coercionFailsFor [] [("id", .vint 3), ("name", .vint 7),
      ("email", .vstr "charlie@example.com"), ("addresses", .vseq [])]
      "name" UserWithAddress := by
    simp only [UserWithAddress, Address, coercionFailsFor]
    refine ⟨?_, ?_, ?_, ?_, trivial⟩
    · intro hid; simp at hid
    · intro _ v hv
      injection hv with hv2
      rw [← hv2]; rfl
    · intro he; simp at he
    · intro ha; simp at ha
  exact ⟨h, custom_rule_gating UserWithAddress "name" []
    [("id", .vint 3), ("name", .vint 7),
     ("email", .vstr "charlie@example.com"), ("addresses", .vseq [])] h⟩

theorem coerceValue_scalar_error (ty : FieldType) (hty : IsScalarTy ty)
    (p : List PathSeg) (v : Value) (es : List ValidationError)
    (h : coerceValue ty p v = .error es) :
    ∃ k m, es = [⟨p, k, m⟩] := by
  rcases hty with h1 | h1 | h1 <;> subst h1 <;> cases v <;>
    simp only [coerceValue] at h <;> (try split at h) <;>
    first
      | exact Except.noConfusion h
      | (injection h with h2; exact ⟨_, _, h2.symm⟩)

theorem validateField_scalar_error (n : String) (ty : FieldType)
    (vs : List CustomValidator) (p : List PathSeg) (o : Option Value)
    (es : List ValidationError) (hty : IsScalarTy ty)
    (h : validateField n (coerceValue ty) vs p o = .error es) :
    ∃ k m, es = [⟨p ++ [.field n], k, m⟩] := by
  cases o with
  | none =>
      simp only [validateField] at h
      injection h with h2; exact ⟨_, _, h2.symm⟩
  | some raw =>
      simp only [validateField] at h
      rcases hc : coerceValue ty (p ++ [.field n]) raw with es2 | w <;>
        rw [hc] at h <;> simp only [] at h
      · injection h with h2
        rw [← h2]
        exact coerceValue_scalar_error ty hty _ raw es2 hc
      · rcases hv : runValidators vs w with m | u <;> rw [hv] at h <;>
          simp only [] at h
        · injection h with h2; exact ⟨_, _, h2.symm⟩
        · exact Except.noConfusion h

theorem validateField_scalar_mem_path (n : String) (ty : FieldType)
    (vs : List CustomValidator) (p : List PathSeg) (o : Option Value)
    (e : ValidationError) (hty : IsScalarTy ty)
    (he : e ∈ errList (validateField n (coerceValue ty) vs p o)) :
    e.path = p ++ [.field n] := by
  rcases hr : validateField n (coerceValue ty) vs p o with es | w <;>
    rw [hr] at he <;> simp [errList] at he
  obtain ⟨k, m, hes⟩ := validateField_scalar_error n ty vs p o es hty hr
  subst hes
  simp at he
  rw [he]

theorem validateFields_Address_path (ep : List PathSeg)
    (akvs : List (String × Value)) (e : ValidationError)
    (he : e ∈ (validateFields Address ep akvs).1) :
    ∃ tail, e.path = ep ++ tail := by
  simp only [Address, validateFields_cons_fst, validateFields_nil,
    List.append_nil, List.mem_append] at he
  rcases he with he | he | he <;>
    [exact ⟨[.field "street"],
       validateField_scalar_mem_path _ _ _ _ _ e (Or.inr (Or.inl rfl)) he⟩;
     exact ⟨[.field "city"],
       validateField_scalar_mem_path _ _ _ _ _ e (Or.inr (Or.inl rfl)) he⟩;
     exact ⟨[.field "zip_code"],
       validateField_scalar_mem_path _ _ _ _ _ e (Or.inr (Or.inl rfl)) he⟩]

theorem validateElement_Address_path (ep : List PathSeg) (v : Value)
    (e : ValidationError)
    (he : e ∈ errList (validateElement (validateFields Address) ep v)) :
    ∃ tail, e.path = ep ++ tail := by
  cases v <;> simp only [validateElement, errList] at he <;>
    try (simp at he; exact ⟨[], by rw [he]; simp⟩)
  case vmap kvs =>
    rcases hf : validateFields Address ep kvs with ⟨es2, outs⟩
    rw [hf] at he
    cases es2 with
    | nil => simp [errList] at he
    | cons e0 tail =>
        simp only [errList] at he
        exact validateFields_Address_path ep kvs e (by rw [hf]; exact he)

theorem coerceItems_mem
    (f : List PathSeg → List (String × Value) →
      List ValidationError × List (String × Value)) (p : List PathSeg) :
    ∀ (items : List Value) (j i : Nat), i < items.length →
      ∀ e, e ∈ errList (validateElement f (p ++ [.index (j + i)])
        (items.getD i .vnull)) →
      e ∈ (coerceItems f p j items).1 := by
  intro items
  induction items with
  | nil => intro j i hi; simp at hi
  | cons v rest ih =>
      intro j i hi e he
      cases i with
      | zero =>
          simp only [List.getD_cons_zero, Nat.add_zero] at he
          simp only [coerceItems]
          rcases hr : validateElement f (p ++ [.index j]) v with es | w <;>
            rw [hr] at he <;> simp [errList] at he
          rcases hrest : coerceItems f p (j + 1) rest with ⟨es2, ws⟩
          rw [hr]
          simp [he]
      | succ i2 =>
          simp only [List.getD_cons_succ] at he
          have harith : j + (i2 + 1) = (j + 1) + i2 := by omega
          rw [harith] at he
          have hlen : i2 < rest.length := by simp at hi; omega
          have hrec := ih (j + 1) i2 hlen e he
          simp only [coerceItems]
          rcases hr : validateElement f (p ++ [.index j]) v with es | w <;>
            rcases hrest : coerceItems f p (j + 1) rest with ⟨es2, ws⟩ <;>
            rw [hrest] at hrec <;> rw [hr]
          · simp at hrec ⊢
            exact Or.inr hrec
          · simp at hrec ⊢
            exact hrec

theorem validate_error_of_fst_ne_nil (schema : FieldList)
    (kvs : List (String × Value))
    (h : (validateFields schema [] kvs).1 ≠ []) :
    validate schema (.vmap kvs) =
      .error (validateFields schema [] kvs).1 := by
  simp only [validate]

theorem validateFields_UWA_fst (kvs : List (String × Value)) :
    (validateFields UserWithAddress [] kvs).1 =
      errList (validateField "id" (coerceValue .intTy) [] []
        (lookupField kvs "id")) ++
      errList (validateField "name" (coerceValue .strTy) [.nameMin2] []
        (lookupField kvs "name")) ++
      errList (validateField "email" (coerceValue .emailTy) [] []
        (lookupField kvs "email")) ++
      errList (validateField "addresses" (coerceValue (.seqTy Address)) [] []
        (lookupField kvs "addresses")) := by
  simp only [UserWithAddress, validateFields_cons_fst, validateFields_nil,
    List.append_nil, List.append_assoc]

/-- Claim C6: when the i-th element of the `addresses` sequence fails
validation, `validate` fails and its report contains an error whose path
starts with the parent field name `addresses` followed by the element index
i — nested errors are re-pathed, never swallowed. -/
theorem nested_error_path (kvs : List (String × Value)) (items : List Value)
    (i : Nat) (hi : i < items.length)
    (haddr : lookupField kvs "addresses" = some (.vseq items))
    (hfail : isErr (validateElement (validateFields Address)
      [PathSeg.field "addresses", PathSeg.index i]
      (items.getD i .vnull)) = true) :
    ∃ es, validate UserWithAddress (.vmap kvs) = .error es ∧
      ∃ e, e ∈ es ∧ ∃ tail,
        e.path = [PathSeg.field "addresses", PathSeg.index i] ++ tail := by
  rcases hr : validateElement (validateFields Address)
      [PathSeg.field "addresses", PathSeg.index i]
      (items.getD i .vnull) with eis | w
  case ok => rw [hr] at hfail; simp [isErr] at hfail
  obtain ⟨e, he⟩ : ∃ e, e ∈ eis := by
    have hne := validateElement_error_ne_nil _ _ _ _ hr
    cases eis with
    | nil => simp at hne
    | cons e0 t => exact ⟨e0, by simp⟩
  have hemem : e ∈ errList (validateElement (validateFields Address)
      [PathSeg.field "addresses", PathSeg.index i] (items.getD i .vnull)) := by
    rw [hr]; exact he
  have hpath := validateElement_Address_path _ _ e hemem
  have hmem2 : e ∈ (coerceItems (validateFields Address)
      [PathSeg.field "addresses"] 0 items).1 := by
    apply coerceItems_mem (validateFields Address) [PathSeg.field "addresses"]
      items 0 i hi e
    have hpe : ([PathSeg.field "addresses"] ++ [PathSeg.index (0 + i)] :
        List PathSeg) = [PathSeg.field "addresses", PathSeg.index i] := by
      simp
    rw [hpe]
    exact hemem
  have haf : e ∈ errList (validateField "addresses"
      (coerceValue (.seqTy Address)) [] [] (lookupField kvs "addresses")) := by
    rw [haddr]
    simp only [validateField, coerceValue, List.nil_append]
    rcases hc : coerceItems (validateFields Address)
        [PathSeg.field "addresses"] 0 items with ⟨es2, ws⟩
    rw [hc] at hmem2
    simp at hmem2
    cases es2 with
    | nil => simp at hmem2
    | cons e0 t =>
        simp [errList]
        simpa using hmem2
  have hfst : e ∈ (validateFields UserWithAddress [] kvs).1 := by
    rw [validateFields_UWA_fst]
    exact List.mem_append_right _ haf
  have hne2 : (validateFields UserWithAddress [] kvs).1 ≠ [] := by
    intro hnil; rw [hnil] at hfst; simp at hfst
  exact ⟨(validateFields UserWithAddress [] kvs).1,
    validate_error_of_fst_ne_nil UserWithAddress kvs hne2, e, hfst, hpath⟩

/-- Witness for C6: element 0 of `addresses` is missing its `zip_code`. -/
theorem nested_error_path_witness :
    lookupField [("id", .vint 3), ("name", .vstr "Bob"),
        ("email", .vstr "charlie@example.com"),
        ("addresses", .vseq [.vmap [("street", .vstr "789 Pine Rd"),
                                    ("city", .vstr "Chicago")]])]
      "addresses" =
      some (.vseq [.vmap [("street", .vstr "789 Pine Rd"),
                          ("city", .vstr "Chicago")]]) ∧
    isErr (validateElement (validateFields Address)
      [PathSeg.field "addresses", PathSeg.index 0]
      (([.vmap [("street", .vstr "789 Pine Rd"),
                ("city", .vstr "Chicago")]] : List Value).getD 0 .vnull)) =
      true ∧
    (∃ es, validate UserWithAddress
        (.vmap [("id", .vint 3), ("name", .vstr "Bob"),
                ("email", .vstr "charlie@example.com"),
                ("addresses", .vseq [.vmap [("street", .vstr "789 Pine Rd"),
                                            ("city", .vstr "Chicago")]])]) =
        .error es ∧
      ∃ e, e ∈ es ∧ ∃ tail,
        e.path = [PathSeg.field "addresses", PathSeg.index 0] ++ tail) :=
  ⟨rfl, rfl, nested_error_path _ _ 0 (by decide) rfl rfl⟩

theorem validateField_scalar_errList_length (n : String) (ty : FieldType)
    (vs : List CustomValidator) (p : List PathSeg) (o : Option Value)
    (hty : IsScalarTy ty) :
    (errList (validateField n (coerceValue ty) vs p o)).length =
      (isErr (validateField n (coerceValue ty) vs p o)).toNat := by
  rcases hr : validateField n (coerceValue ty) vs p o with es | w
  · obtain ⟨k, m, hes⟩ := validateField_scalar_error n ty vs p o es hty hr
    subst hes
    simp [errList, isErr]
  · simp [errList, isErr]

theorem validateFields_Address_fst_length (ep : List PathSeg)
    (akvs : List (String × Value)) :
    (validateFields Address ep akvs).1.length =
      (isErr (validateField "street" (coerceValue .strTy) [] ep
        (lookupField akvs "street"))).toNat +
      (isErr (validateField "city" (coerceValue .strTy) [] ep
        (lookupField akvs "city"))).toNat +
      (isErr (validateField "zip_code" (coerceValue .strTy) [] ep
        (lookupField akvs "zip_code"))).toNat := by
  simp only [Address, validateFields_cons_fst, validateFields_nil,
    List.append_nil, List.length_append]
  rw [validateField_scalar_errList_length _ _ _ _ _ (Or.inr (Or.inl rfl)),
    validateField_scalar_errList_length _ _ _ _ _ (Or.inr (Or.inl rfl)),
    validateField_scalar_errList_length _ _ _ _ _ (Or.inr (Or.inl rfl))]
  omega

theorem validateElement_Address_errList_length (ep : List PathSeg)
    (v : Value) :
    (errList (validateElement (validateFields Address) ep v)).length =
      addrElemFailCount ep v := by
  cases v <;>
    simp only [validateElement, addrElemFailCount, errList, List.length_cons,
      List.length_nil]
  case vmap akvs =>
    rw [← validateFields_Address_fst_length ep akvs]
    rcases hf : validateFields Address ep akvs with ⟨es2, outs⟩
    cases es2 with
    | nil => simp [errList]
    | cons e0 t => simp [errList]

theorem coerceItems_Address_fst_length (p : List PathSeg) :
    ∀ (items : List Value) (j : Nat),
      (coerceItems (validateFields Address) p j items).1.length =
        addressesFailCount p j items := by
  intro items
  induction items with
  | nil => intro j; rfl
  | cons v rest ih =>
      intro j
      simp only [coerceItems, addressesFailCount]
      have helem := validateElement_Address_errList_length (p ++ [.index j]) v
      rcases hr : validateElement (validateFields Address)
          (p ++ [.index j]) v with es | w <;> rw [hr] at helem <;>
        rcases hrest : coerceItems (validateFields Address) p (j + 1) rest
          with ⟨es2, ws⟩
      · have hlen2 : es2.length = addressesFailCount p (j + 1) rest := by
          rw [← ih (j + 1), hrest]
        simp [errList] at helem
        rw [hr]
        simp [← helem, ← hlen2]
      · have hlen2 : es2.length = addressesFailCount p (j + 1) rest := by
          rw [← ih (j + 1), hrest]
        simp [errList] at helem
        rw [hr]
        simp [← helem, ← hlen2]

theorem validateField_addresses_errList_length
    (kvs : List (String × Value)) :
    (errList (validateField "addresses" (coerceValue (.seqTy Address)) [] []
      (lookupField kvs "addresses"))).length =
      (match lookupField kvs "addresses" with
       | some (.vseq items) =>
           addressesFailCount [PathSeg.field "addresses"] 0 items
       | _ => 1) := by
  rcases ho : lookupField kvs "addresses" with _ | v
  · simp [validateField, errList]
  · cases v <;>
      simp only [validateField, coerceValue, List.nil_append, errList,
        List.length_cons, List.length_nil]
    case vseq items =>
      rw [← coerceItems_Address_fst_length [PathSeg.field "addresses"] items 0]
      rcases hc : coerceItems (validateFields Address)
          [PathSeg.field "addresses"] 0 items with ⟨es2, ws⟩
      cases es2 with
      | nil => simp [errList, runValidators]
      | cons e0 t => simp [errList]

theorem validate_error_elim (schema : FieldList)
    (kvs : List (String × Value)) (es : List ValidationError)
    (h : validate schema (.vmap kvs) = .error es) :
    es = (validateFields schema [] kvs).1 ∧ es ≠ [] := by
  simp only [validate] at h
  rcases hv : validateFields schema [] kvs with ⟨es2, outs⟩
  rw [hv] at h
  cases es2 with
  | nil => exact Except.noConfusion h
  | cons e t =>
      have h2 : Except.error (ε := List ValidationError) (e :: t) =
          Except.error es := h
      injection h2 with h3
      constructor
      · rw [← h3]
      · rw [← h3]; simp

/-- Claim C3: error aggregation — whenever `validate` fails on a record, the
report is exactly the ordered concatenation of every field's own error list
(declaration order, nothing dropped or deduplicated), its length equals the
number of failing fields/sub-fields, and it is never just the first error
artificially truncated (it is nonempty and complete). -/
theorem error_aggregation (kvs : List (String × Value))
    (es : List ValidationError)
    (h : validate UserWithAddress (.vmap kvs) = .error es) :
    es = errList (validateField "id" (coerceValue .intTy) [] []
           (lookupField kvs "id")) ++
         errList (validateField "name" (coerceValue .strTy) [.nameMin2] []
           (lookupField kvs "name")) ++
         errList (validateField "email" (coerceValue .emailTy) [] []
           (lookupField kvs "email")) ++
         errList (validateField "addresses" (coerceValue (.seqTy Address))
           [] [] (lookupField kvs "addresses")) ∧
    es.length = countFailingLeaves kvs ∧ es ≠ [] := by
  obtain ⟨h1, h2⟩ := validate_error_elim UserWithAddress kvs es h
  refine ⟨by rw [h1, validateFields_UWA_fst], ?_, h2⟩
  rw [h1, validateFields_UWA_fst]
  simp only [List.length_append, countFailingLeaves]
  rw [validateField_scalar_errList_length _ _ _ _ _ (Or.inl rfl),
    validateField_scalar_errList_length _ _ _ _ _ (Or.inr (Or.inl rfl)),
    validateField_scalar_errList_length _ _ _ _ _ (Or.inr (Or.inr rfl)),
    validateField_addresses_errList_length]

/-- Witness for C3: three independent failures (bad id, short name, bad
email) yield exactly three errors. -/
theorem error_aggregation_witness :
    validate UserWithAddress
      (.vmap [("id", .vstr "abc"), ("name", .vstr "A"),
              ("email", .vstr "not-an-email"),
              ("addresses", .vseq [.vmap [("street", .vstr "789 Pine Rd"),
                                          ("city", .vstr "Chicago"),
                                          ("zip_code", .vstr "60601")]])]) =
      .error [⟨[.field "id"], .typeMismatch, "Input should be a valid integer"⟩,
              ⟨[.field "name"], .customRuleFailure,
               "Name must be at least 2 characters long"⟩,
              ⟨[.field "email"], .formatMismatch,
               "value is not a valid email address"⟩] ∧
    ([(⟨[.field "id"], .typeMismatch,
        "Input should be a valid integer"⟩ : ValidationError),
      ⟨[.field "name"], .customRuleFailure,
       "Name must be at least 2 characters long"⟩,
      ⟨[.field "email"], .formatMismatch,
       "value is not a valid email address"⟩] :
      List ValidationError).length =
      countFailingLeaves [("id", .vstr "abc"), ("name", .vstr "A"),
        ("email", .vstr "not-an-email"),
        ("addresses", .vseq [.vmap [("street", .vstr "789 Pine Rd"),
                                    ("city", .vstr "Chicago"),
                                    ("zip_code", .vstr "60601")]])] :=
  ⟨rfl, (error_aggregation
    [("id", .vstr "abc"), ("name", .vstr "A"),
     ("email", .vstr "not-an-email"),
     ("addresses", .vseq [.vmap [("street", .vstr "789 Pine Rd"),
                                 ("city", .vstr "Chicago"),
                                 ("zip_code", .vstr "60601")]])]
    [⟨[.field "id"], .typeMismatch, "Input should be a valid integer"⟩,
     ⟨[.field "name"], .customRuleFailure,
      "Name must be at least 2 characters long"⟩,
     ⟨[.field "email"], .formatMismatch,
      "value is not a valid email address"⟩] rfl).2.1⟩

mutual
theorem to_plain_mapping_id : ∀ (v : Value), to_plain_mapping v = v
  | .vnull => by simp [to_plain_mapping]
  | .vbool b => by simp [to_plain_mapping]
  | .vint n => by simp [to_plain_mapping]
  | .vstr s => by simp [to_plain_mapping]
  | .vseq items => by
      simp only [to_plain_mapping]
      rw [dumpItems_id items]
  | .vmap entries => by
      simp only [to_plain_mapping]
      rw [dumpEntries_id entries]
termination_by v => sizeOf v
decreasing_by
  all_goals simp_wf

theorem dumpItems_id : ∀ (l : List Value), dumpItems l = l
  | [] => by simp [dumpItems]
  | v :: rest => by
      simp only [dumpItems]
      rw [to_plain_mapping_id v, dumpItems_id rest]
termination_by l => sizeOf l
decreasing_by
  all_goals simp_wf
  all_goals omega

theorem dumpEntries_id : ∀ (l : List (String × Value)), dumpEntries l = l
  | [] => by simp [dumpEntries]
  | (k, v) :: rest => by
      simp only [dumpEntries]
      rw [to_plain_mapping_id v, dumpEntries_id rest]
termination_by l => sizeOf l
decreasing_by
  all_goals simp_wf
  all_goals omega
end

theorem coerceValue_int_ok (p : List PathSeg) (v w : Value)
    (h : coerceValue .intTy p v = .ok w) : ∃ n, w = .vint n := by
  cases v <;> simp only [coerceValue] at h <;> (try split at h) <;>
    first
      | exact Except.noConfusion h
      | (injection h with h2; exact ⟨_, h2.symm⟩)

theorem coerceValue_str_ok (p : List PathSeg) (v w : Value)
    (h : coerceValue .strTy p v = .ok w) : ∃ s, v = .vstr s ∧ w = .vstr s := by
  cases v <;> simp only [coerceValue] at h <;>
    first
      | exact Except.noConfusion h
      | (injection h with h2; exact ⟨_, rfl, h2.symm⟩)

theorem coerceValue_email_ok (p : List PathSeg) (v w : Value)
    (h : coerceValue .emailTy p v = .ok w) :
    ∃ s, v = .vstr s ∧ w = .vstr s ∧ isEmail s = true := by
  cases v <;> simp only [coerceValue] at h <;>
    try exact Except.noConfusion h
  case vstr s =>
    cases he : isEmail s <;> rw [he] at h
    · simp at h
    · simp at h
      exact ⟨s, rfl, h.symm, he⟩

theorem validateField_int_ok (n : String) (p : List PathSeg)
    (o : Option Value) (w : Value)
    (h : validateField n (coerceValue .intTy) [] p o = .ok w) :
    ∃ m, w = .vint m := by
  cases o with
  | none => simp only [validateField] at h; exact Except.noConfusion h
  | some raw =>
      simp only [validateField] at h
      rcases hc : coerceValue .intTy (p ++ [.field n]) raw with es | u <;>
        rw [hc] at h <;> simp only [] at h
      · exact Except.noConfusion h
      · obtain ⟨m, hm⟩ := coerceValue_int_ok _ _ _ hc
        simp [runValidators] at h
        rw [← h, hm]
        exact ⟨m, rfl⟩

theorem validateField_str_ok (n : String) (p : List PathSeg)
    (o : Option Value) (w : Value)
    (h : validateField n (coerceValue .strTy) [] p o = .ok w) :
    ∃ s, o = some (.vstr s) ∧ w = .vstr s := by
  cases o with
  | none => simp only [validateField] at h; exact Except.noConfusion h
  | some raw =>
      simp only [validateField] at h
      rcases hc : coerceValue .strTy (p ++ [.field n]) raw with es | u <;>
        rw [hc] at h <;> simp only [] at h
      · exact Except.noConfusion h
      · obtain ⟨s, hraw, hu⟩ := coerceValue_str_ok _ _ _ hc
        simp [runValidators] at h
        rw [← h, hraw, hu]
        exact ⟨s, rfl, rfl⟩

theorem validateField_email_ok (n : String) (p : List PathSeg)
    (o : Option Value) (w : Value)
    (h : validateField n (coerceValue .emailTy) [] p o = .ok w) :
    ∃ s, w = .vstr s ∧ isEmail s = true := by
  cases o with
  | none => simp only [validateField] at h; exact Except.noConfusion h
  | some raw =>
      simp only [validateField] at h
      rcases hc : coerceValue .emailTy (p ++ [.field n]) raw with es | u <;>
        rw [hc] at h <;> simp only [] at h
      · exact Except.noConfusion h
      · obtain ⟨s, _, hu, hem⟩ := coerceValue_email_ok _ _ _ hc
        simp [runValidators] at h
        rw [← h, hu]
        exact ⟨s, rfl, hem⟩

theorem validateField_name_ok (n : String) (p : List PathSeg)
    (o : Option Value) (w : Value)
    (h : validateField n (coerceValue .strTy) [CustomValidator.nameMin2]
      p o = .ok w) :
    ∃ s, w = .vstr s ∧ 2 ≤ s.length := by
  cases o with
  | none => simp only [validateField] at h; exact Except.noConfusion h
  | some raw =>
      simp only [validateField] at h
      rcases hc : coerceValue .strTy (p ++ [.field n]) raw with es | u <;>
        rw [hc] at h <;> simp only [] at h
      · exact Except.noConfusion h
      · obtain ⟨s, _, hu⟩ := coerceValue_str_ok _ _ _ hc
        subst hu
        by_cases hl : s.length < 2
        · simp [runValidators, runCustomValidator,
            name_must_be_at_least_two_chars, hl] at h
        · simp [runValidators, runCustomValidator,
            name_must_be_at_least_two_chars, hl] at h
          rw [← h]
          exact ⟨s, rfl, by omega⟩

theorem validateField_seqAddress_ok (n : String) (p : List PathSeg)
    (o : Option Value) (w : Value)
    (h : validateField n (coerceValue (.seqTy Address)) [] p o = .ok w) :
    ∃ items ws, o = some (.vseq items) ∧
      coerceItems (validateFields Address) (p ++ [.field n]) 0 items =
        ([], ws) ∧
      w = .vseq ws := by
  cases o with
  | none => simp only [validateField] at h; exact Except.noConfusion h
  | some raw =>
      simp only [validateField] at h
      rcases hc : coerceValue (.seqTy Address) (p ++ [.field n]) raw
        with es | u <;> rw [hc] at h <;> simp only [] at h
      · exact Except.noConfusion h
      · cases raw <;> simp only [coerceValue] at hc <;>
          try exact Except.noConfusion hc
        case vseq items =>
          rcases hci : coerceItems (validateFields Address)
              (p ++ [.field n]) 0 items with ⟨es2, ws⟩
          rw [hci] at hc
          cases es2 with
          | cons e t => simp only [] at hc; exact Except.noConfusion hc
          | nil =>
              simp only [] at hc
              injection hc with hc2
              simp [runValidators] at h
              exact ⟨items, ws, rfl, hci, by rw [← h, ← hc2]⟩

theorem validateFields_cons_ok_elim (n : String) (ty : FieldType)
    (vs : List CustomValidator) (rest : FieldList) (p : List PathSeg)
    (kvs : List (String × Value)) (outs : List (String × Value))
    (h : validateFields (.cons n ty vs rest) p kvs = ([], outs)) :
    ∃ w outs2,
      validateField n (coerceValue ty) vs p (lookupField kvs n) = .ok w ∧
      validateFields rest p kvs = ([], outs2) ∧ outs = (n, w) :: outs2 := by
  rw [validateFields_cons] at h
  rcases hr : validateField n (coerceValue ty) vs p (lookupField kvs n)
    with es | w <;>
    rcases hrest : validateFields rest p kvs with ⟨es2, outs3⟩ <;>
    rw [hr, hrest] at h <;> simp only [] at h
  · injection h with ha hb
    obtain ⟨he1, _⟩ := List.append_eq_nil.mp ha
    exact absurd he1 (validateField_error_ne_nil n ty vs p _ es hr)
  · injection h with ha hb
    subst ha
    exact ⟨w, outs3, rfl, rfl, hb.symm⟩

theorem validateFields_UWA_out_roundtrip (m : Int) (s e : String)
    (ws : List Value) (hlen : 2 ≤ s.length) (hem : isEmail e = true)
    (hci : coerceItems (validateFields Address) [PathSeg.field "addresses"]
      0 ws = ([], ws)) :
    validateFields UserWithAddress []
      [("id", .vint m), ("name", .vstr s), ("email", .vstr e),
       ("addresses", .vseq ws)] =
      ([], [("id", .vint m), ("name", .vstr s), ("email", .vstr e),
            ("addresses", .vseq ws)]) := by
  have hnm : name_must_be_at_least_two_chars (.vstr s) = .ok (.vstr s) := by
    have hnl : ¬ (s.length < 2) := by omega
    simp [name_must_be_at_least_two_chars, hnl]
  have hid : validateField "id" (coerceValue .intTy) [] []
      (lookupField [("id", Value.vint m), ("name", Value.vstr s),
        ("email", Value.vstr e), ("addresses", Value.vseq ws)] "id") =
      .ok (.vint m) := rfl
  have hname : validateField "name" (coerceValue .strTy) [.nameMin2] []
      (lookupField [("id", Value.vint m), ("name", Value.vstr s),
        ("email", Value.vstr e), ("addresses", Value.vseq ws)] "name") =
      .ok (.vstr s) := by
    simp [validateField, lookupField, coerceValue, runValidators,
      runCustomValidator, hnm]
  have hemail : validateField "email" (coerceValue .emailTy) [] []
      (lookupField [("id", Value.vint m), ("name", Value.vstr s),
        ("email", Value.vstr e), ("addresses", Value.vseq ws)] "email") =
      .ok (.vstr e) := by
    simp [validateField, lookupField, coerceValue, runValidators, hem]
  have haddr : validateField "addresses" (coerceValue (.seqTy Address)) [] []
      (lookupField [("id", Value.vint m), ("name", Value.vstr s),
        ("email", Value.vstr e), ("addresses", Value.vseq ws)]
        "addresses") = .ok (.vseq ws) := by
    simp [validateField, lookupField, coerceValue, runValidators, hci]
  simp only [UserWithAddress, validateFields_cons, validateFields_nil,
    hid, hname, hemail, haddr]

theorem validateFields_Address_ok (ep : List PathSeg)
    (akvs : List (String × Value)) (outs : List (String × Value))
    (h : validateFields Address ep akvs = ([], outs)) :
    ∃ a b c, outs = [("street", .vstr a), ("city", .vstr b),
                     ("zip_code", .vstr c)] := by
  have h' : validateFields
      (.cons "street" .strTy []
        (.cons "city" .strTy []
          (.cons "zip_code" .strTy [] .nil))) ep akvs = ([], outs) := h
  obtain ⟨w1, o1, hw1, h1, ho1⟩ := validateFields_cons_ok_elim _ _ _ _ _ _ _ h'
  obtain ⟨w2, o2, hw2, h2, ho2⟩ := validateFields_cons_ok_elim _ _ _ _ _ _ _ h1
  obtain ⟨w3, o3, hw3, h3, ho3⟩ := validateFields_cons_ok_elim _ _ _ _ _ _ _ h2
  have ho4 : o3 = [] := by
    rw [validateFields_nil] at h3
    injection h3 with _ hx
    exact hx.symm
  obtain ⟨a, _, hwa⟩ := validateField_str_ok _ _ _ _ hw1
  obtain ⟨b, _, hwb⟩ := validateField_str_ok _ _ _ _ hw2
  obtain ⟨c, _, hwc⟩ := validateField_str_ok _ _ _ _ hw3
  exact ⟨a, b, c, by rw [ho1, ho2, ho3, ho4, hwa, hwb, hwc]⟩

theorem Address_out_roundtrip (ep : List PathSeg) (a b c : String) :
    validateFields Address ep
      [("street", .vstr a), ("city", .vstr b), ("zip_code", .vstr c)] =
      ([], [("street", .vstr a), ("city", .vstr b), ("zip_code", .vstr c)]) :=
  rfl

theorem validateElement_Address_roundtrip (ep : List PathSeg) (v w : Value)
    (h : validateElement (validateFields Address) ep v = .ok w) :
    validateElement (validateFields Address) ep w = .ok w := by
  cases v <;> simp only [validateElement] at h <;>
    try exact Except.noConfusion h
  case vmap kvs =>
    rcases hf : validateFields Address ep kvs with ⟨es2, outs⟩
    rw [hf] at h
    cases es2 with
    | cons e t => simp only [] at h; exact Except.noConfusion h
    | nil =>
        simp only [] at h
        injection h with h2
        obtain ⟨a, b, c, ho⟩ := validateFields_Address_ok ep kvs outs hf
        rw [← h2, ho]
        rfl

theorem coerceItems_Address_roundtrip :
    ∀ (items : List Value) (p : List PathSeg) (i : Nat) (ws : List Value),
      coerceItems (validateFields Address) p i items = ([], ws) →
      coerceItems (validateFields Address) p i ws = ([], ws) := by
  intro items
  induction items with
  | nil =>
      intro p i ws h
      injection h with _ h2
      rw [← h2]
      rfl
  | cons v rest ih =>
      intro p i ws h
      simp only [coerceItems] at h
      rcases hr : validateElement (validateFields Address)
          (p ++ [.index i]) v with es | w <;>
        rcases hrest : coerceItems (validateFields Address) p (i + 1) rest
          with ⟨es2, ws2⟩ <;>
        rw [hr, hrest] at h <;> simp only [] at h
      · injection h with ha _
        obtain ⟨he1, _⟩ := List.append_eq_nil.mp ha
        exact absurd he1 (validateElement_error_ne_nil _ _ _ es hr)
      · injection h with ha hb
        subst ha
        have hrt := ih p (i + 1) ws2 hrest
        have hel := validateElement_Address_roundtrip _ _ _ hr
        rw [← hb]
        simp only [coerceItems]
        rw [hel, hrt]

theorem validateFields_UWA_ok (kvs outs : List (String × Value))
    (h : validateFields UserWithAddress [] kvs = ([], outs)) :
    ∃ m s e ws,
      outs = [("id", .vint m), ("name", .vstr s), ("email", .vstr e),
              ("addresses", .vseq ws)] ∧
      2 ≤ s.length ∧ isEmail e = true ∧
      coerceItems (validateFields Address) [PathSeg.field "addresses"] 0 ws =
        ([], ws) := by
  have h' : validateFields
      (.cons "id" .intTy []
        (.cons "name" .strTy [.nameMin2]
          (.cons "email" .emailTy []
            (.cons "addresses" (.seqTy Address) [] .nil)))) [] kvs =
      ([], outs) := h
  obtain ⟨w1, o1, hw1, h1, ho1⟩ := validateFields_cons_ok_elim _ _ _ _ _ _ _ h'
  obtain ⟨w2, o2, hw2, h2, ho2⟩ := validateFields_cons_ok_elim _ _ _ _ _ _ _ h1
  obtain ⟨w3, o3, hw3, h3, ho3⟩ := validateFields_cons_ok_elim _ _ _ _ _ _ _ h2
  obtain ⟨w4, o4, hw4, h4, ho4⟩ := validateFields_cons_ok_elim _ _ _ _ _ _ _ h3
  have ho5 : o4 = [] := by
    rw [validateFields_nil] at h4
    injection h4 with _ hx
    exact hx.symm
  obtain ⟨m, hm⟩ := validateField_int_ok _ _ _ _ hw1
  obtain ⟨s, hs, hlen⟩ := validateField_name_ok _ _ _ _ hw2
  obtain ⟨e, he1, he2⟩ := validateField_email_ok _ _ _ _ hw3
  obtain ⟨items, ws, _, hws2, hws3⟩ := validateField_seqAddress_ok _ _ _ _ hw4
  refine ⟨m, s, e, ws,
    by rw [ho1, ho2, ho3, ho4, ho5, hm, hs, he1, hws3], hlen, he2, ?_⟩
  exact coerceItems_Address_roundtrip items _ 0 ws hws2

/-- Claim C2: round-trip law — whenever `validate` accepts a raw record
against the `UserWithAddress` schema, re-validating the `to_plain_mapping`
projection of the resulting instance against the same schema succeeds and
yields an instance equal to the original. -/
theorem roundtrip_law (raw inst : Value)
    (h : validate UserWithAddress raw = .ok inst) :
    validate UserWithAddress (to_plain_mapping inst) = .ok inst := by
  cases raw <;> simp only [validate] at h <;> try exact Except.noConfusion h
  case vmap kvs =>
    rcases hv : validateFields UserWithAddress [] kvs with ⟨es, outs⟩
    rw [hv] at h
    cases es with
    | cons e t => simp only [] at h; exact Except.noConfusion h
    | nil =>
        simp only [] at h
        injection h with h2
        obtain ⟨m, s, e, ws, ho, hlen, hem, hci⟩ :=
          validateFields_UWA_ok kvs outs hv
        rw [← h2, ho, to_plain_mapping_id]
        simp only [validate,
          validateFields_UWA_out_roundtrip m s e ws hlen hem hci]

/-- Witness for C2 at the source's valid two-address record. -/
theorem roundtrip_law_witness :
    validate UserWithAddress validInput = .ok validInput ∧
    validate UserWithAddress (to_plain_mapping validInput) =
      .ok validInput :=
  ⟨rfl, roundtrip_law validInput validInput rfl⟩

end Pydantic3
